import Mathlib

set_option maxRecDepth 100000

/-!
Verification of the media artifact compositor: a shallow embedding of the
homography solver (`box3d/base.py`), the fit-within scaling and layout of
the mix-image compositor (`miximage.py`), the 3D-box geometry and spine
gradient (`box3d/base.py`) and the PS2-style spine decoration
(`box3d/ps2.py`), together with proofs of the specified properties.

Python machine integers are modelled as `Nat`/`Int`; Python floats are
modelled as exact rationals.  At every use site the float expression is a
product of a small integer with a short decimal constant, and the exact
value and the double-rounded value truncate to the same integer; each such
site is annotated.
-/

/-- Python `int()` applied to a nonnegative-or-negative rational:
truncation toward zero. -/
def pyint (q : ℚ) : ℤ := if q < 0 then ⌈q⌉ else ⌊q⌋

/-- An RGBA pixel value (one byte per channel in the source, modelled on `ℕ`). -/
structure RGBA where
  r : ℕ
  g : ℕ
  b : ℕ
  a : ℕ
deriving DecidableEq

/-- A raster image: width, height, and a total pixel function.  Coordinates
outside the `w × h` rectangle carry junk values and are never inspected. -/
structure Img where
  w : ℕ
  h : ℕ
  px : ℕ → ℕ → RGBA

/-- `Image.putpixel((x, y), c)`: replace a single pixel. -/
def putpixel (img : Img) (x y : ℕ) (c : RGBA) : Img :=
  { img with px := fun i j => if i = x ∧ j = y then c else img.px i j }

/-- `ImageDraw.rectangle([(x0, y0), (x1, y1)], fill=c)`: both corners are
included, pixels outside the image are clipped (here: junk, never read). -/
def rectangle (img : Img) (x0 y0 x1 y1 : ℤ) (c : RGBA) : Img :=
  { img with px := fun i j =>
      if x0 ≤ (i : ℤ) ∧ (i : ℤ) ≤ x1 ∧ y0 ≤ (j : ℤ) ∧ (j : ℤ) ≤ y1 then c
      else img.px i j }

/-! ## Homography solver (`base.py`, `find_perspective_coeffs`)

The source builds an 8×8 linear system from the four point correspondences
and solves it with `np.linalg.lstsq`.  On an invertible system `lstsq`
returns the unique exact solution; that case is modelled by exact Gaussian
elimination over `ℚ`.  `none` models the singular case (where `lstsq`
would in fact still return a minimum-norm least-squares vector rather than
raise — so `none` over-approximates, in the claim's favour, what could
count as "failing"). -/

/-- Pick the first row with a nonzero leading entry; return it together
with the remaining rows.  `none` when every leading entry is zero. -/
def pivotSplit : List (List ℚ) → Option (List ℚ × List (List ℚ))
  | [] => none
  | r :: rest =>
    if r.headD 0 ≠ 0 then some (r, rest)
    else
      match pivotSplit rest with
      | some (p, others) => some (p, r :: others)
      | none => none

/-- Eliminate the leading column of `r` using pivot row `p` and drop it. -/
def elimRow (p r : List ℚ) : List ℚ :=
  let factor := r.headD 0 / p.headD 1
  List.zipWith (fun a b => a - factor * b) r.tail p.tail

/-- Gaussian elimination with back substitution on an augmented system of
`n` unknowns (each row: `n` coefficients followed by the right-hand side). -/
def gaussSolve : ℕ → List (List ℚ) → Option (List ℚ)
  | 0, _ => some []
  | n + 1, rows =>
    match pivotSplit rows with
    | none => none
    | some (p, rest) =>
      match gaussSolve n (rest.map (elimRow p)) with
      | none => none
      | some sol =>
        let p0 := p.headD 1
        let tailp := p.tail
        let coeffs := tailp.take n
        let rhs := (tailp.drop n).headD 0
        some (((rhs - (List.zipWith (· * ·) coeffs sol).sum) / p0) :: sol)

/-- The augmented rows of the source's system: for each correspondence
`(sx, sy) ↦ (dx, dy)` the rows
`[dx, dy, 1, 0, 0, 0, -sx*dx, -sx*dy | sx]` and
`[0, 0, 0, dx, dy, 1, -sy*dx, -sy*dy | sy]`, exactly as `base.py` builds
`A` and `B`. -/
def perspectiveRows (src dst : List (ℚ × ℚ)) : List (List ℚ) :=
  (List.zip src dst).foldr
    (fun sd acc =>
      [sd.2.1, sd.2.2, 1, 0, 0, 0, -sd.1.1 * sd.2.1, -sd.1.1 * sd.2.2, sd.1.1] ::
      [0, 0, 0, sd.2.1, sd.2.2, 1, -sd.1.2 * sd.2.1, -sd.1.2 * sd.2.2, sd.1.2] :: acc)
    []

/-- `find_perspective_coeffs(src_points, dst_points)`: solve the 8×8
system for the 8 perspective coefficients. -/
def find_perspective_coeffs (src dst : List (ℚ × ℚ)) : Option (List ℚ) :=
  gaussSolve 8 (perspectiveRows src dst)

/-- Three points are collinear (or coincident): the cross product of the
two difference vectors vanishes. -/
def collinear3 (p q r : ℚ × ℚ) : Prop :=
  (q.1 - p.1) * (r.2 - p.2) - (q.2 - p.2) * (r.1 - p.1) = 0

/-! ## Fit-within scaling (`miximage.py`, `_fit_image`)

`_fit_image` computes `scale = min(max_w / w, max_h / h, 1.0)`, returns a
copy when `scale >= 1.0`, and otherwise resizes to
`(max(1, int(w*scale)), max(1, int(h*scale)))`.  Only the dimensions are
modelled (`LANCZOS` resampling does not affect them).  The float divisions
are modelled by exact rational division: the branch test and the truncated
products agree with double arithmetic for all image dimensions of
interest, and the proved inequalities hold for the float computation as
well since rounding a value that is ≥ 1, or taking `int()` of a product
strictly below an integer bound, cannot cross the bound. -/

def fit_size (w h max_w max_h : ℕ) : ℕ × ℕ :=
  let scale : ℚ := min ((max_w : ℚ) / w) (min ((max_h : ℚ) / h) 1)
  if 1 ≤ scale then (w, h)
  else (max 1 (pyint ((w : ℚ) * scale)).toNat, max 1 (pyint ((h : ℚ) * scale)).toNat)

/-! ## Mix-image layout (`miximage.py`, `generate_miximage`)

Placement arithmetic of the three optional layers.  The canvas constants
are the module-level constants of `miximage.py`; each `int(c * f)` float
product is evaluated (the double rounding agrees: `int(1280*0.45) = 576`,
`int(960*0.25) = 240`, `int(1280*0.40) = 512`, `int(960*0.55) = 528`,
`int(1280*0.25) = 320`, `int(960*0.30) = 288`). -/

def CANVAS_W : ℕ := 1280
def CANVAS_H : ℕ := 960
def MARQUEE_MAX_W : ℕ := CANVAS_W * 45 / 100
def MARQUEE_MAX_H : ℕ := CANVAS_H * 25 / 100
def MARQUEE_MARGIN_RIGHT : ℕ := 30
def MARQUEE_MARGIN_TOP : ℕ := 20
def BOX3D_MAX_W : ℕ := CANVAS_W * 40 / 100
def BOX3D_MAX_H : ℕ := CANVAS_H * 55 / 100
def BOX3D_MARGIN_LEFT : ℕ := 20
def BOX3D_MARGIN_BOTTOM : ℕ := 20
def PMEDIA_MAX_W : ℕ := CANVAS_W * 25 / 100
def PMEDIA_MAX_H : ℕ := CANVAS_H * 30 / 100
def PMEDIA_MARGIN_BOTTOM : ℕ := 30
def PMEDIA_GAP : ℤ := -10

/-- A layer resolved onto the canvas: position of its top-left corner and
its (already fitted) dimensions. -/
structure Placed where
  x : ℤ
  y : ℤ
  w : ℕ
  h : ℕ
deriving DecidableEq

/-- The placements `generate_miximage` computes for its three optional
layers, given each layer's native size (`None` = asset absent).  Mirrors
`miximage.py` lines 121-160: marquee at the top-right margin; 3D box at
the bottom-left margin, recording `box3d_right_edge` (initialised to the
left margin); physical media at `box3d_right_edge + _PMEDIA_GAP`,
anchored to the bottom margin. -/
structure MixPlacements where
  marquee : Option Placed
  box3d : Option Placed
  pmedia : Option Placed
  box3d_right_edge : ℤ
deriving DecidableEq

def mix_layout (marquee box3d pmedia : Option (ℕ × ℕ)) : MixPlacements :=
  let mq := marquee.map fun wh =>
    let f := fit_size wh.1 wh.2 MARQUEE_MAX_W MARQUEE_MAX_H
    Placed.mk ((CANVAS_W : ℤ) - f.1 - MARQUEE_MARGIN_RIGHT) (MARQUEE_MARGIN_TOP : ℤ) f.1 f.2
  let bx := box3d.map fun wh =>
    let f := fit_size wh.1 wh.2 BOX3D_MAX_W BOX3D_MAX_H
    Placed.mk (BOX3D_MARGIN_LEFT : ℤ) ((CANVAS_H : ℤ) - f.2 - BOX3D_MARGIN_BOTTOM) f.1 f.2
  let redge : ℤ :=
    match bx with
    | some p => p.x + p.w
    | none => (BOX3D_MARGIN_LEFT : ℤ)
  let pm := pmedia.map fun wh =>
    let f := fit_size wh.1 wh.2 PMEDIA_MAX_W PMEDIA_MAX_H
    Placed.mk (redge + PMEDIA_GAP) ((CANVAS_H : ℤ) - f.2 - PMEDIA_MARGIN_BOTTOM) f.1 f.2
  ⟨mq, bx, pm, redge⟩

/-! ## 3D-box geometry (`base.py`, `generate_3dbox`, lines 64-77)

The integer layout values computed from the cover size and the style
parameters.  Python float products are modelled exactly
(`0.55 = 11/20`, `0.22 = 11/50`, `1.8 = 9/5`, `0.04 = 1/25`); `int()`
is `pyint`. -/

structure Box3DGeom where
  spine_w : ℕ
  front_w : ℤ
  shrinkV : ℤ
  spine_drop : ℤ
  margin : ℤ
  out_w : ℤ
  out_h : ℤ

def box3d_geometry (cw ch : ℕ) (spine_ratio angle_pct : ℚ)
    (canvas_w canvas_h : ℕ) : Box3DGeom :=
  let sw : ℕ := (max 4 (pyint ((cw : ℚ) * spine_ratio))).toNat
  let fw : ℤ := pyint ((cw : ℚ) * (1 - angle_pct * (55 / 100)))
  let sv : ℤ := pyint ((ch : ℚ) * angle_pct * (22 / 100))
  let sd : ℤ := pyint ((sw : ℚ) * angle_pct * (9 / 5))
  let mg : ℤ := pyint ((cw : ℚ) * (4 / 100))
  ⟨sw, fw, sv, sd, mg,
    if canvas_w = 0 then fw + sw + mg else canvas_w,
    if canvas_h = 0 then ch + sd + mg else canvas_h⟩

/-! ## Spine base gradient (`base.py`, `generate_3dbox`, lines 94-110) -/

/-- Pixels of `cover.crop((0, 0, max(1, cw // 10), ch))` (the thin strip
at the left edge of the cover), as read by `getdata()`. -/
def strip_pixels (cover : Img) : List RGBA :=
  (List.range cover.h).foldr
    (fun y acc => ((List.range (max 1 (cover.w / 10))).map fun x => cover.px x y) ++ acc)
    []

/-- One channel of the per-channel integer average over a pixel list
(`sum // len`). -/
def channel_avg (l : List RGBA) (f : RGBA → ℕ) : ℕ :=
  (l.map f).sum / l.length

/-- The per-column gradient colour: `int(dark + (light - dark) * t)` with
`t = x / max(1, spine_w - 1)`; the operand is nonnegative whenever
`dark ≤ light` per channel, so `int()` is a floor. -/
def gradient_channel (d l : ℕ) (x sw : ℕ) : ℕ :=
  (pyint ((d : ℚ) + ((l : ℚ) - d) * ((x : ℚ) / (max 1 (sw - 1) : ℕ)))).toNat

def gradient_color (dark light : ℕ × ℕ × ℕ) (x sw : ℕ) : RGBA :=
  ⟨gradient_channel dark.1 light.1 x sw,
   gradient_channel dark.2.1 light.2.1 x sw,
   gradient_channel dark.2.2 light.2.2 x sw, 255⟩

/-- One column of the nested `putpixel` loop. -/
def fillColumn (img : Img) (x : ℕ) (c : RGBA) (n : ℕ) : Img :=
  (List.range n).foldl (fun im y => putpixel im x y c) img

/-- The spine base image: `Image.new("RGBA", (spine_w, ch), (*light, 255))`
followed by the double `putpixel` loop writing the per-column gradient
colour with full alpha. -/
def spine_gradient (sw ch : ℕ) (dark light : ℕ × ℕ × ℕ) : Img :=
  (List.range sw).foldl
    (fun im x => fillColumn im x (gradient_color dark light x sw) ch)
    ⟨sw, ch, fun _ _ => ⟨light.1, light.2.1, light.2.2, 255⟩⟩

/-- The dark tone: `max(0, int(c * 0.45))` per channel.  For channel
averages (≤ 255) the double product truncates like the exact one, so this
is `c * 45 / 100` on `ℕ` (the `max 0` is vacuous on `ℕ`). -/
def tone45 (c : ℕ) : ℕ := c * 45 / 100

/-- The light tone: `max(0, int(c * 0.70))` per channel. -/
def tone70 (c : ℕ) : ℕ := c * 70 / 100

/-- `generate_3dbox` lines 94-110: average the strip of the (possibly
decorated) cover, derive the dark/light tones, and build the gradient. -/
def box3d_spine_base (cover : Img) (sw : ℕ) : Img :=
  let strip := strip_pixels cover
  let r := channel_avg strip RGBA.r
  let g := channel_avg strip RGBA.g
  let b := channel_avg strip RGBA.b
  spine_gradient sw cover.h (tone45 r, tone45 g, tone45 b) (tone70 r, tone70 g, tone70 b)

/-! ## PS2-style decoration (`ps2.py`)

Font rendering is external to the repository (`PIL.ImageFont`); it is
abstracted by a `Font` value giving, per font size, the measured text
bounding-box width/height of a character (`draw.textbbox` differences) or
of a whole string, and the ink coverage of a drawn glyph relative to its
drawing origin.  A drawn glyph's ink lies inside its measured
`charW × charH` box. -/

structure Font where
  charW : ℕ → Char → ℕ
  charH : ℕ → Char → ℕ
  glyphInk : ℕ → Char → ℕ → ℕ → Bool
  strW : ℕ → String → ℕ
  strH : ℕ → String → ℕ
  strInk : ℕ → String → ℕ → ℕ → Bool

/-- `PLATFORM_DISPLAY` of `ps2.py`. -/
def PLATFORM_DISPLAY : List (String × String) :=
  [("ps2", "PlayStation 2"), ("ps3", "PlayStation 3"), ("ps4", "PlayStation 4"),
   ("psp", "PSP"), ("psvita", "PS Vita"), ("psx", "PlayStation")]

/-- `PLATFORM_DISPLAY.get(system.lower(), system)`. -/
def platformDisplay (system : String) : String :=
  ((PLATFORM_DISPLAY.lookup system.toLower).getD system)

/-- Does the glyph drawn at `(x, y)` cover canvas pixel `(i, j)`?  True
when `(i, j) = (x + dx, y + dy)` for some inked `(dx, dy)` inside the
glyph's measured box. -/
def glyphCovers (font : Font) (size : ℕ) (c : Char) (x y : ℤ) (i j : ℕ) : Bool :=
  (List.range (font.charW size c)).any fun dx =>
    (List.range (font.charH size c)).any fun dy =>
      font.glyphInk size c dx dy && ((i : ℤ) == x + dx) && ((j : ℤ) == y + dy)

/-- `draw.text((x, y), ch, fill=color, font=font)` for a single character. -/
def drawGlyph (font : Font) (size : ℕ) (img : Img) (x y : ℤ) (c : Char)
    (color : RGBA) : Img :=
  { img with px := fun i j =>
      if glyphCovers font size c x y i j then color else img.px i j }

/-- As `glyphCovers`, for a whole string of measured size
`strW × strH`. -/
def strCovers (font : Font) (size : ℕ) (s : String) (x y : ℤ) (i j : ℕ) : Bool :=
  (List.range (font.strW size s)).any fun dx =>
    (List.range (font.strH size s)).any fun dy =>
      font.strInk size s dx dy && ((i : ℤ) == x + dx) && ((j : ℤ) == y + dy)

/-- `draw.text((x, y), s, fill=color, font=font)` for a whole string. -/
def drawString (font : Font) (size : ℕ) (img : Img) (x y : ℤ) (s : String)
    (color : RGBA) : Img :=
  { img with px := fun i j =>
      if strCovers font size s x y i j then color else img.px i j }

/-- `tmp.rotate(-90, expand=True)`: rotate clockwise by 90°, swapping the
dimensions (`BICUBIC` resampling is exact on -90°). -/
def rotateCW (img : Img) : Img :=
  ⟨img.h, img.w, fun i j => img.px j (img.h - 1 - i)⟩

/-- Per-pixel blend of `Image.paste(im, box, mask)` with an RGBA mask:
each channel is interpolated by the mask's alpha (PIL's exact rounding of
this cosmetic blend is not load-bearing for any claim). -/
def blendPx (base over : RGBA) : RGBA :=
  ⟨(over.r * over.a + base.r * (255 - over.a)) / 255,
   (over.g * over.a + base.g * (255 - over.a)) / 255,
   (over.b * over.a + base.b * (255 - over.a)) / 255,
   (over.a * over.a + base.a * (255 - over.a)) / 255⟩

/-- `img.paste(layer, (x, y), layer)`: masked paste of `layer` at a
(possibly negative) position; out-of-canvas parts are clipped. -/
def pasteMasked (img layer : Img) (x y : ℤ) : Img :=
  { img with px := fun i j =>
      if x ≤ (i : ℤ) ∧ (i : ℤ) < x + layer.w ∧ y ≤ (j : ℤ) ∧ (j : ℤ) < y + layer.h then
        blendPx (img.px i j) (layer.px ((i : ℤ) - x).toNat ((j : ℤ) - y).toNat)
      else img.px i j }

/-- Porter-Duff "over" of `Image.alpha_composite(dst, src)` (again, exact
rounding is not load-bearing; a fully transparent `src` leaves `dst`). -/
def alphaOver (dst src : RGBA) : RGBA :=
  let ao := src.a * 255 + dst.a * (255 - src.a)
  if ao = 0 then ⟨0, 0, 0, 0⟩ else
  ⟨(src.r * src.a * 255 + dst.r * dst.a * (255 - src.a)) / ao,
   (src.g * src.a * 255 + dst.g * dst.a * (255 - src.a)) / ao,
   (src.b * src.a * 255 + dst.b * dst.a * (255 - src.a)) / ao,
   ao / 255⟩

/-- `_draw_vertical_text`: draw the characters one below the other,
each centred on `x_center`, starting at `y_start`, advancing by the
measured character height plus `spacing`, breaking as soon as the next
glyph would end past `y_end`. -/
def draw_vertical_text_px (font : Font) (size : ℕ) (img : Img)
    (chars : List Char) (x_center : ℕ) (y y_end : ℤ) (color : RGBA)
    (spacing : ℕ) : Img :=
  match chars with
  | [] => img
  | c :: rest =>
    let hc := font.charH size c
    if y_end < y + hc then img
    else
      draw_vertical_text_px font size
        (drawGlyph font size img ((x_center : ℤ) - font.charW size c / 2) y c color)
        rest x_center (y + hc + spacing) y_end color spacing

/-- The measured total stack height of the title at a font size: the sum
of character heights plus `max(1, int(size * 0.12))` spacing between
consecutive characters (`0.12 = 3/25`; the double product truncates like
the exact one for all realistic sizes). -/
def total_title_h (font : Font) (size : ℕ) (chars : List Char) : ℕ :=
  (chars.map (font.charH size)).sum + max 1 (size * 12 / 100) * (chars.length - 1)

/-- The title shrink loop (`ps2.py` lines 190-197):
`while total_title_h > band and size > 6: size -= 1`, written with
explicit fuel (structural recursion); `fuel = size` always suffices since
each iteration decrements `size` and stops at 6. -/
def shrink_title_go (font : Font) (chars : List Char) (band : ℤ) :
    ℕ → ℕ → ℕ
  | 0, size => size
  | fuel + 1, size =>
    if band < (total_title_h font size chars : ℤ) ∧ 6 < size then
      shrink_title_go font chars band fuel (size - 1)
    else size

def shrink_title_font (font : Font) (chars : List Char) (band : ℤ)
    (size : ℕ) : ℕ :=
  shrink_title_go font chars band size size

/-- The platform-label shrink loop (`ps2.py` lines 137-142):
`while text_w > sh * 0.35 and size > 5: size -= 1`; the float comparison
`text_w > sh * 0.35` is the exact integer comparison
`100 * text_w > 35 * sh`. -/
def shrink_plat_go (font : Font) (name : String) (sh : ℕ) : ℕ → ℕ → ℕ
  | 0, size => size
  | fuel + 1, size =>
    if 35 * sh < 100 * font.strW size name ∧ 5 < size then
      shrink_plat_go font name sh fuel (size - 1)
    else size

def shrink_plat_font (font : Font) (name : String) (sh : ℕ) (size : ℕ) : ℕ :=
  shrink_plat_go font name sh size size

/-- The rotated platform-label image (`ps2.py` lines 131-151): shrink the
font until the label fits 35% of the spine height, draw it with padding
`max(2, int(text_h * 0.3))` on a transparent buffer, rotate by -90°. -/
def plat_label_img (font : Font) (name : String) (sw sh : ℕ) : Img :=
  let fs := shrink_plat_font font name sh (max 6 (sw / 2))
  let tw := font.strW fs name
  let th := font.strH fs name
  let pad := max 2 (th * 3 / 10)
  rotateCW
    (drawString font fs ⟨tw + 2 * pad, th + 2 * pad, fun _ _ => ⟨0, 0, 0, 0⟩⟩
      (pad : ℤ) (pad : ℤ) name ⟨255, 255, 255, 230⟩)

/-- `_add_spine_highlight`: return unchanged when the spine is narrower
than 6 px; otherwise build the vertical highlight band
(centre `int(sw*0.75)`, half-width `max(2, int(sw*0.25))`, alpha
`int(50*t²)`) on a transparent buffer by `putpixel`, then paste the
alpha-composite over the spine at `(0, 0)`. -/
def add_spine_highlight (img : Img) : Img :=
  if img.w < 6 then img else
  let sw := img.w
  let sh := img.h
  let cx : ℤ := sw * 75 / 100
  let width : ℤ := max 2 (sw * 25 / 100)
  let highlight : Img :=
    (List.range sw).foldl
      (fun im (x : ℕ) =>
        let dist : ℤ := |(x : ℤ) - cx|
        if width < dist then im
        else
          let t : ℚ := 1 - (dist : ℚ) / width
          let al := (pyint (50 * t * t)).toNat
          fillColumn im x ⟨255, 255, 255, al⟩ sh)
      ⟨sw, sh, fun _ _ => ⟨0, 0, 0, 0⟩⟩
  { img with px := fun i j =>
      if i < sw ∧ j < sh then alphaOver (img.px i j) (highlight.px i j)
      else img.px i j }

/-- `decorate_cover` of `ps2.py`: black case bands of height
`max(2, int(ch * 0.02))` at the top and bottom of the cover. -/
def decorate_cover (cover : Img) (ch : ℕ) : Img :=
  let cw := cover.w
  let case_band : ℤ := max 2 (ch * 2 / 100)
  rectangle
    (rectangle cover 0 0 (cw : ℤ) case_band ⟨20, 20, 20, 255⟩)
    0 ((ch : ℤ) - case_band) (cw : ℤ) (ch : ℤ) ⟨20, 20, 20, 255⟩

/-- `decorate_spine` of `ps2.py` (lines 104-205): early return below 6 px
width; platform label (shrunk, drawn, rotated); black background with a
white title band; pasted label; vertical title (shrunk to the reserved
band, then drawn clipped); gloss highlight.  Float products:
`int(sh*0.02) = sh*2/100`, `int(sw*0.50) = sw/2`, `int(sw*0.15) = sw*15/100`,
`int(sw*0.55) = sw*55/100`, `int(size*0.12) = size*12/100`. -/
def decorate_spine (font : Font) (spine : Img) (title system font_path : String) :
    Img :=
  if spine.w < 6 then spine else
  let sw := spine.w
  let sh := spine.h
  let platform_name := if system = "" then "" else platformDisplay system
  let x_center := sw / 2
  let case_top_h := sh * 2 / 100
  let case_bot_h := sh * 2 / 100
  let plat_rotated : Option Img :=
    if platform_name = "" then none
    else some (plat_label_img font platform_name sw sh)
  let plat_region_h :=
    match plat_rotated with
    | some rot => rot.h
    | none => 0
  let title_region_top := case_top_h + plat_region_h
  let title_region_bot := sh - case_bot_h
  let s1 := rectangle spine 0 0 (sw : ℤ) (sh : ℤ) ⟨20, 20, 20, 255⟩
  let s2 :=
    if title = "" then s1
    else rectangle s1 0 (title_region_top : ℤ) (sw : ℤ) (title_region_bot : ℤ)
      ⟨255, 255, 255, 255⟩
  let s3 :=
    match plat_rotated with
    | some rot => pasteMasked s2 rot (Int.fdiv ((sw : ℤ) - rot.w) 2) (case_top_h : ℤ)
    | none => s2
  let s4 :=
    if title = "" then s3
    else
      let title_pad := sw * 15 / 100
      let ys := title_region_top + title_pad
      let ye : ℤ := (title_region_bot : ℤ) - title_pad
      let fs := shrink_title_font font title.toList (ye - ys) (max 7 (sw * 55 / 100))
      let sp := max 1 (fs * 12 / 100)
      draw_vertical_text_px font fs s3 title.toList x_center (ys : ℤ) ye
        ⟨0, 0, 0, 200⟩ sp
  add_spine_highlight s4

/-! ## Decorator registry (`dialog.py`, `_get_decorators`) and the
decoration call sites of `generate_3dbox` (`base.py`, lines 68-69 and
112-113). -/

/-- `_PS2_STYLE_SYSTEMS` of `dialog.py`. -/
def PS2_STYLE_SYSTEMS : List String := ["ps2", "ps3", "ps4", "psp", "psvita", "psx"]

/-- `_get_decorators(system)`: the PS2-style pair when `system.lower()`
is registered, `(None, None)` otherwise. -/
def get_decorators (font : Font) (system : String) :
    Option (Img → ℕ → Img) × Option (Img → String → String → String → Img) :=
  if system.toLower ∈ PS2_STYLE_SYSTEMS then
    (some decorate_cover, some (decorate_spine font))
  else (none, none)

/-- `if decorate_cover: decorate_cover(cover, ch)`. -/
def box3d_cover_stage (dec : Option (Img → ℕ → Img)) (cover : Img) : Img :=
  match dec with
  | some f => f cover cover.h
  | none => cover

/-- `if decorate_spine: decorate_spine(spine_img, spine_text, system, font_path)`. -/
def box3d_spine_stage (dec : Option (Img → String → String → String → Img))
    (spine : Img) (text system font_path : String) : Img :=
  match dec with
  | some f => f spine text system font_path
  | none => spine

/-- The pre-warp stage of `generate_3dbox`: layout geometry, optional
cover decoration, spine base gradient built from the (possibly decorated)
cover, optional spine decoration.  The subsequent perspective warps,
shadow and composition consume these artifacts unchanged. -/
structure Box3DPre where
  geom : Box3DGeom
  cover_face : Img
  spine_face : Img

def box3d_prewarp (font : Font) (cover : Img) (spine_ratio angle_pct : ℚ)
    (canvas_w canvas_h : ℕ) (spine_text system font_path : String) : Box3DPre :=
  let geom := box3d_geometry cover.w cover.h spine_ratio angle_pct canvas_w canvas_h
  let decs := get_decorators font system
  let cover2 := box3d_cover_stage decs.1 cover
  let base := box3d_spine_base cover2 geom.spine_w
  let spine2 := box3d_spine_stage decs.2 base spine_text system font_path
  ⟨geom, cover2, spine2⟩

/-- A concrete font assigning every character and string a 2×2 measured
box with full ink coverage; used to instantiate witnesses. -/
def unitFont : Font :=
  ⟨fun _ _ => 2, fun _ _ => 2, fun _ _ _ _ => true,
   fun _ _ => 2, fun _ _ => 2, fun _ _ _ _ => true⟩

/-- Concrete images used to instantiate witnesses. -/
def coverC6 : Img := ⟨10, 4, fun _ _ => ⟨100, 50, 200, 255⟩⟩

def coverC8 : Img := ⟨6, 4, fun _ _ => ⟨9, 9, 9, 255⟩⟩

def spineC9 : Img := ⟨5, 10, fun _ _ => ⟨1, 2, 3, 255⟩⟩

/-! ## Helper lemmas -/

theorem pyint_eq_floor {q : ℚ} (h : 0 ≤ q) : pyint q = ⌊q⌋ := by
  unfold pyint
  rw [if_neg (not_lt.mpr h)]

@[simp] theorem putpixel_w (img : Img) (x y : ℕ) (c : RGBA) :
    (putpixel img x y c).w = img.w := rfl

@[simp] theorem putpixel_h (img : Img) (x y : ℕ) (c : RGBA) :
    (putpixel img x y c).h = img.h := rfl

@[simp] theorem rectangle_w (img : Img) (x0 y0 x1 y1 : ℤ) (c : RGBA) :
    (rectangle img x0 y0 x1 y1 c).w = img.w := rfl

@[simp] theorem rectangle_h (img : Img) (x0 y0 x1 y1 : ℤ) (c : RGBA) :
    (rectangle img x0 y0 x1 y1 c).h = img.h := rfl

@[simp] theorem drawGlyph_w (font : Font) (size : ℕ) (img : Img) (x y : ℤ)
    (c : Char) (color : RGBA) : (drawGlyph font size img x y c color).w = img.w := rfl

@[simp] theorem drawGlyph_h (font : Font) (size : ℕ) (img : Img) (x y : ℤ)
    (c : Char) (color : RGBA) : (drawGlyph font size img x y c color).h = img.h := rfl

@[simp] theorem drawString_w (font : Font) (size : ℕ) (img : Img) (x y : ℤ)
    (s : String) (color : RGBA) : (drawString font size img x y s color).w = img.w := rfl

@[simp] theorem drawString_h (font : Font) (size : ℕ) (img : Img) (x y : ℤ)
    (s : String) (color : RGBA) : (drawString font size img x y s color).h = img.h := rfl

@[simp] theorem pasteMasked_w (img layer : Img) (x y : ℤ) :
    (pasteMasked img layer x y).w = img.w := rfl

@[simp] theorem pasteMasked_h (img layer : Img) (x y : ℤ) :
    (pasteMasked img layer x y).h = img.h := rfl

theorem fit_size_le (w h mW mH : ℕ) (hw : 1 ≤ w) (hh : 1 ≤ h) :
    (fit_size w h mW mH).1 ≤ w ∧ (fit_size w h mW mH).2 ≤ h := by
  unfold fit_size
  set scale : ℚ := min ((mW : ℚ) / w) (min ((mH : ℚ) / h) 1) with hs
  have hsnn : 0 ≤ scale := by
    apply le_min (by positivity) (le_min (by positivity) (by norm_num))
  have hs1 : scale ≤ 1 := le_trans (min_le_right _ _) (min_le_right _ _)
  by_cases hge : 1 ≤ scale
  · rw [if_pos hge]
    exact ⟨le_refl _, le_refl _⟩
  · rw [if_neg hge]
    constructor
    · apply max_le hw
      rw [pyint_eq_floor (by positivity)]
      rw [Int.toNat_le]
      calc ⌊(w : ℚ) * scale⌋ ≤ ⌊(w : ℚ)⌋ := by
            apply Int.floor_le_floor
            calc (w : ℚ) * scale ≤ (w : ℚ) * 1 := by
                  apply mul_le_mul_of_nonneg_left hs1 (by positivity)
              _ = w := mul_one _
        _ = w := Int.floor_natCast _
    · apply max_le hh
      rw [pyint_eq_floor (by positivity)]
      rw [Int.toNat_le]
      calc ⌊(h : ℚ) * scale⌋ ≤ ⌊(h : ℚ)⌋ := by
            apply Int.floor_le_floor
            calc (h : ℚ) * scale ≤ (h : ℚ) * 1 := by
                  apply mul_le_mul_of_nonneg_left hs1 (by positivity)
              _ = h := mul_one _
        _ = h := Int.floor_natCast _

theorem fit_size_of_le (w h mW mH : ℕ) (hw : 1 ≤ w) (hh : 1 ≤ h)
    (h1 : w ≤ mW) (h2 : h ≤ mH) : fit_size w h mW mH = (w, h) := by
  unfold fit_size
  have hwq : (0 : ℚ) < w := by positivity
  have hhq : (0 : ℚ) < h := by positivity
  have ha : (1 : ℚ) ≤ (mW : ℚ) / w := (one_le_div hwq).mpr (by exact_mod_cast h1)
  have hb : (1 : ℚ) ≤ (mH : ℚ) / h := (one_le_div hhq).mpr (by exact_mod_cast h2)
  rw [if_pos (le_min ha (le_min hb (le_refl _)))]

theorem fit_size_bounds (w h mW mH : ℕ) (hw : 1 ≤ w) (hh : 1 ≤ h)
    (hW : 1 ≤ mW) (hH : 1 ≤ mH) :
    (fit_size w h mW mH).1 ≤ mW ∧ (fit_size w h mW mH).2 ≤ mH := by
  unfold fit_size
  set scale : ℚ := min ((mW : ℚ) / w) (min ((mH : ℚ) / h) 1) with hs
  have hwq : (0 : ℚ) < w := by positivity
  have hhq : (0 : ℚ) < h := by positivity
  have hsnn : 0 ≤ scale := by
    apply le_min (by positivity) (le_min (by positivity) (by norm_num))
  by_cases hge : 1 ≤ scale
  · rw [if_pos hge]
    have ha : (1 : ℚ) ≤ (mW : ℚ) / w := le_trans hge (min_le_left _ _)
    have hb : (1 : ℚ) ≤ (mH : ℚ) / h :=
      le_trans hge (le_trans (min_le_right _ _) (min_le_left _ _))
    constructor
    · exact_mod_cast (one_le_div hwq).mp ha
    · exact_mod_cast (one_le_div hhq).mp hb
  · rw [if_neg hge]
    constructor
    · apply max_le hW
      rw [pyint_eq_floor (by positivity), Int.toNat_le]
      calc ⌊(w : ℚ) * scale⌋ ≤ ⌊(mW : ℚ)⌋ := by
            apply Int.floor_le_floor
            calc (w : ℚ) * scale ≤ (w : ℚ) * ((mW : ℚ) / w) := by
                  apply mul_le_mul_of_nonneg_left (min_le_left _ _) (by positivity)
              _ = mW := by field_simp
        _ = mW := Int.floor_natCast _
    · apply max_le hH
      rw [pyint_eq_floor (by positivity), Int.toNat_le]
      calc ⌊(h : ℚ) * scale⌋ ≤ ⌊(mH : ℚ)⌋ := by
            apply Int.floor_le_floor
            calc (h : ℚ) * scale ≤ (h : ℚ) * ((mH : ℚ) / h) := by
                  apply mul_le_mul_of_nonneg_left
                    (le_trans (min_le_right _ _) (min_le_left _ _)) (by positivity)
              _ = mH := by field_simp
        _ = mH := Int.floor_natCast _

theorem fit_size_pos (w h mW mH : ℕ) (hw : 1 ≤ w) (hh : 1 ≤ h) :
    1 ≤ (fit_size w h mW mH).1 ∧ 1 ≤ (fit_size w h mW mH).2 := by
  unfold fit_size
  by_cases hge : 1 ≤ min ((mW : ℚ) / w) (min ((mH : ℚ) / h) 1)
  · rw [if_pos hge]; exact ⟨hw, hh⟩
  · rw [if_neg hge]; exact ⟨le_max_left _ _, le_max_left _ _⟩

/-! ## Claim theorems -/

/-- Claim C1, counterexample: the source quad `(0,0), (1,0), (2,0), (0,1)`
has its first three points collinear, yet `find_perspective_coeffs`
returns a coefficients value (`isSome`) for it — it does not yield a
`SourceDegenerate` error (no such error path exists in the code). -/
theorem find_perspective_coeffs_degenerate_counterexample :
    collinear3 (0, 0) (1, 0) (2, 0) ∧
    (find_perspective_coeffs [(0, 0), (1, 0), (2, 0), (0, 1)]
      [(0, 0), (100, 0), (100, 100), (0, 100)]).isSome = true := by
  constructor
  · norm_num [collinear3]
  · with_unfolding_all decide

/-- Claim C1, amended: `find_perspective_coeffs` performs no degeneracy
check; on a source quad with three collinear points (and a non-degenerate
destination quad, so the 8×8 system is invertible) it returns the exact
8-coefficient solution of the correspondence system rather than an error. -/
theorem find_perspective_coeffs_degenerate_returns_solution :
    find_perspective_coeffs [(0, 0), (1, 0), (2, 0), (0, 1)]
      [(0, 0), (100, 0), (100, 100), (0, 100)]
      = some [1/50, 0, 0, 0, 0, 0, 1/100, -1/100] := by
  with_unfolding_all decide

/-- Claim C2: `_fit_image` never enlarges — the fitted dimensions are
bounded by the native dimensions, and when the native size already fits
within the (positive) bounds the dimensions are returned unchanged. -/
theorem fit_size_never_enlarges (w h mW mH : ℕ)
    (hw : 1 ≤ w) (hh : 1 ≤ h) (_hW : 1 ≤ mW) (_hH : 1 ≤ mH) :
    ((fit_size w h mW mH).1 ≤ w ∧ (fit_size w h mW mH).2 ≤ h) ∧
    (w ≤ mW → h ≤ mH → fit_size w h mW mH = (w, h)) :=
  ⟨fit_size_le w h mW mH hw hh, fun h1 h2 => fit_size_of_le w h mW mH hw hh h1 h2⟩

/-- Claim C2, witness at `w = 1000, h = 500, maxW = maxH = 100`. -/
theorem fit_size_never_enlarges_witness :
    (1 ≤ 1000 ∧ 1 ≤ 500 ∧ 1 ≤ 100) ∧
    (((fit_size 1000 500 100 100).1 ≤ 1000 ∧ (fit_size 1000 500 100 100).2 ≤ 500) ∧
      (1000 ≤ 100 → 500 ≤ 100 → fit_size 1000 500 100 100 = (1000, 500))) :=
  ⟨by decide,
   fit_size_never_enlarges 1000 500 100 100 (by decide) (by decide) (by decide) (by decide)⟩

/-- Claim C10: fitting is idempotent on dimensions — re-fitting the
fitted size with the same bounds returns it unchanged. -/
theorem fit_size_idempotent (w h mW mH : ℕ)
    (hw : 1 ≤ w) (hh : 1 ≤ h) (hW : 1 ≤ mW) (hH : 1 ≤ mH) :
    fit_size (fit_size w h mW mH).1 (fit_size w h mW mH).2 mW mH
      = fit_size w h mW mH := by
  obtain ⟨hp1, hp2⟩ := fit_size_pos w h mW mH hw hh
  obtain ⟨hb1, hb2⟩ := fit_size_bounds w h mW mH hw hh hW hH
  rw [fit_size_of_le _ _ _ _ hp1 hp2 hb1 hb2]

/-- Claim C10, witness at `w = 1000, h = 500, maxW = maxH = 100`. -/
theorem fit_size_idempotent_witness :
    (1 ≤ 1000 ∧ 1 ≤ 500 ∧ 1 ≤ 100) ∧
    fit_size (fit_size 1000 500 100 100).1 (fit_size 1000 500 100 100).2 100 100
      = fit_size 1000 500 100 100 :=
  ⟨by decide,
   fit_size_idempotent 1000 500 100 100 (by decide) (by decide) (by decide) (by decide)⟩

/-- Claim C3, counterexample: for a 10-px-wide cover and
`spine_ratio = 0.08`, the truncation `int(cw * spine_ratio)` is `0`, but
`generate_3dbox` sets the spine width to `4` (the `max(4, ·)` clamp),
refuting "the spine width is `spine_ratio × cover_width` truncated". -/
theorem box3d_spine_w_counterexample :
    (box3d_geometry 10 800 (8/100) (30/100) 0 0).spine_w
        ≠ (pyint ((10 : ℚ) * (8/100))).toNat ∧
    (box3d_geometry 10 800 (8/100) (30/100) 0 0).spine_w = 4 ∧
    (pyint ((10 : ℚ) * (8/100))).toNat = 0 := by
  with_unfolding_all decide

/-- Claim C3, amended: the spine width is
`max(4, int(spine_ratio * cover_width))`; it equals the truncated product
exactly when that truncation is at least 4. -/
theorem box3d_spine_w_formula (cw ch : ℕ) (ratio angle : ℚ) (cvw cvh : ℕ)
    (h4 : 4 ≤ pyint ((cw : ℚ) * ratio)) :
    (box3d_geometry cw ch ratio angle cvw cvh).spine_w
      = (pyint ((cw : ℚ) * ratio)).toNat := by
  unfold box3d_geometry
  dsimp only
  rw [max_eq_right h4]

/-- Claim C3, witness at a 600-px cover and the default ratio `0.08`
(spine width `48 = int(600 * 0.08)`). -/
theorem box3d_spine_w_formula_witness :
    4 ≤ pyint ((600 : ℚ) * (8/100)) ∧
    (box3d_geometry 600 800 (8/100) (30/100) 0 0).spine_w
      = (pyint ((600 : ℚ) * (8/100))).toNat :=
  ⟨by with_unfolding_all decide,
   box3d_spine_w_formula 600 800 (8/100) (30/100) 0 0 (by with_unfolding_all decide)⟩

/-- Claim C4, counterexample: with no 3D box placed and a 100×100 physical
media image, `generate_miximage` anchors the physical media at
`x = 10 = _BOX3D_MARGIN_LEFT + _PMEDIA_GAP`, not exactly at the left
margin (`20`) as claimed. -/
theorem mix_pmedia_no_box_counterexample :
    ((mix_layout none none (some (100, 100))).pmedia.map Placed.x) = some 10 ∧
    (BOX3D_MARGIN_LEFT : ℤ) = 20 ∧ (10 : ℤ) ≠ 20 := by
  with_unfolding_all decide

/-- Claim C4, amended: whenever a physical-media layer is present, its
horizontal anchor is `box3d_right_edge + _PMEDIA_GAP` — the 3D box's right
edge plus the configured negative gap when a box was placed, and the left
margin plus that same gap when no box was placed; its vertical anchor is
the bottom margin. -/
theorem mix_pmedia_anchor (mq bx : Option (ℕ × ℕ)) (w h : ℕ) :
    (mix_layout mq bx (some (w, h))).pmedia =
      some ⟨(mix_layout mq bx (some (w, h))).box3d_right_edge + PMEDIA_GAP,
        (CANVAS_H : ℤ) - (fit_size w h PMEDIA_MAX_W PMEDIA_MAX_H).2 - PMEDIA_MARGIN_BOTTOM,
        (fit_size w h PMEDIA_MAX_W PMEDIA_MAX_H).1,
        (fit_size w h PMEDIA_MAX_W PMEDIA_MAX_H).2⟩ ∧
    (bx = none → (mix_layout mq bx (some (w, h))).box3d_right_edge = (BOX3D_MARGIN_LEFT : ℤ)) ∧
    (∀ bw bh : ℕ, bx = some (bw, bh) →
      (mix_layout mq bx (some (w, h))).box3d_right_edge =
        (BOX3D_MARGIN_LEFT : ℤ) + (fit_size bw bh BOX3D_MAX_W BOX3D_MAX_H).1) := by
  rcases bx with _ | ⟨bw, bh⟩
  · refine ⟨rfl, fun _ => rfl, fun bw bh hbx => ?_⟩
    simp at hbx
  · refine ⟨rfl, fun hbx => ?_, fun bw2 bh2 hbx => ?_⟩
    · simp at hbx
    · have h1 := Option.some.inj hbx
      obtain ⟨rfl, rfl⟩ : bw = bw2 ∧ bh = bh2 :=
        ⟨congrArg Prod.fst h1, congrArg Prod.snd h1⟩
      rfl

/-- Claim C4, witness: a box of native size 50×60 and physical media of
native size 100×100 (both already within their max boxes). -/
theorem mix_pmedia_anchor_witness :
    (mix_layout none (some (50, 60)) (some (100, 100))).pmedia =
      some ⟨(mix_layout none (some (50, 60)) (some (100, 100))).box3d_right_edge + PMEDIA_GAP,
        (CANVAS_H : ℤ) - (fit_size 100 100 PMEDIA_MAX_W PMEDIA_MAX_H).2 - PMEDIA_MARGIN_BOTTOM,
        (fit_size 100 100 PMEDIA_MAX_W PMEDIA_MAX_H).1,
        (fit_size 100 100 PMEDIA_MAX_W PMEDIA_MAX_H).2⟩ ∧
    (some (50, 60) = (none : Option (ℕ × ℕ)) →
      (mix_layout none (some (50, 60)) (some (100, 100))).box3d_right_edge
        = (BOX3D_MARGIN_LEFT : ℤ)) ∧
    (∀ bw bh : ℕ, (some ((50 : ℕ), (60 : ℕ))) = some (bw, bh) →
      (mix_layout none (some (50, 60)) (some (100, 100))).box3d_right_edge =
        (BOX3D_MARGIN_LEFT : ℤ) + (fit_size bw bh BOX3D_MAX_W BOX3D_MAX_H).1) :=
  mix_pmedia_anchor none (some (50, 60)) 100 100

theorem foldl_pres_w (g : Img → ℕ → Img) (hg : ∀ im x, (g im x).w = im.w)
    (l : List ℕ) (img : Img) : (l.foldl g img).w = img.w := by
  induction l generalizing img with
  | nil => rfl
  | cons a t ih => rw [List.foldl_cons, ih, hg]

theorem foldl_pres_h (g : Img → ℕ → Img) (hg : ∀ im x, (g im x).h = im.h)
    (l : List ℕ) (img : Img) : (l.foldl g img).h = img.h := by
  induction l generalizing img with
  | nil => rfl
  | cons a t ih => rw [List.foldl_cons, ih, hg]

theorem fillColumn_px (img : Img) (x : ℕ) (c : RGBA) (n : ℕ) (i j : ℕ) :
    (fillColumn img x c n).px i j = if i = x ∧ j < n then c else img.px i j := by
  induction n with
  | zero => simp [fillColumn]
  | succ m ih =>
    unfold fillColumn
    rw [List.range_succ, List.foldl_append]
    simp only [List.foldl_cons, List.foldl_nil]
    show (putpixel (fillColumn img x c m) x m c).px i j = _
    unfold putpixel
    dsimp only
    by_cases hij : i = x ∧ j = m
    · rw [if_pos hij, if_pos ⟨hij.1, by omega⟩]
    · rw [if_neg hij, ih]
      by_cases him : i = x ∧ j < m
      · rw [if_pos him, if_pos ⟨him.1, by omega⟩]
      · rw [if_neg him, if_neg (by omega)]

theorem fillColumn_w (img : Img) (x : ℕ) (c : RGBA) (n : ℕ) :
    (fillColumn img x c n).w = img.w := by
  unfold fillColumn
  exact foldl_pres_w (fun im y => putpixel im x y c) (fun _ _ => rfl) (List.range n) img

theorem fillColumn_h (img : Img) (x : ℕ) (c : RGBA) (n : ℕ) :
    (fillColumn img x c n).h = img.h := by
  unfold fillColumn
  exact foldl_pres_h (fun im y => putpixel im x y c) (fun _ _ => rfl) (List.range n) img

theorem foldl_fillColumn_px (l : List ℕ) (f : ℕ → RGBA) (n : ℕ) (img : Img)
    (i j : ℕ) :
    (l.foldl (fun im x => fillColumn im x (f x) n) img).px i j
      = if i ∈ l ∧ j < n then f i else img.px i j := by
  induction l generalizing img with
  | nil => simp
  | cons a t ih =>
    rw [List.foldl_cons, ih]
    by_cases hmem : i ∈ t ∧ j < n
    · rw [if_pos hmem, if_pos ⟨List.mem_cons_of_mem _ hmem.1, hmem.2⟩]
    · rw [if_neg hmem, fillColumn_px]
      by_cases hia : i = a ∧ j < n
      · rw [if_pos hia, if_pos ⟨by rw [hia.1]; exact List.mem_cons_self _ _, hia.2⟩, hia.1]
      · rw [if_neg hia, if_neg ?_]
        rintro ⟨hmc, hj⟩
        rcases List.mem_cons.mp hmc with h1 | h1
        · exact hia ⟨h1, hj⟩
        · exact hmem ⟨h1, hj⟩

theorem spine_gradient_px (sw ch : ℕ) (dark light : ℕ × ℕ × ℕ) (x y : ℕ)
    (hx : x < sw) (hy : y < ch) :
    (spine_gradient sw ch dark light).px x y = gradient_color dark light x sw := by
  unfold spine_gradient
  rw [foldl_fillColumn_px, if_pos ⟨List.mem_range.mpr hx, hy⟩]

theorem gradient_channel_left (d l sw : ℕ) : gradient_channel d l 0 sw = d := by
  unfold gradient_channel
  norm_num
  rw [pyint_eq_floor (by positivity)]
  simp

theorem gradient_channel_right (d l sw : ℕ) (h2 : 2 ≤ sw) :
    gradient_channel d l (sw - 1) sw = l := by
  unfold gradient_channel
  have hm : (max 1 (sw - 1) : ℕ) = sw - 1 := max_eq_right (by omega)
  rw [hm]
  have hne : ((sw - 1 : ℕ) : ℚ) ≠ 0 := by
    have : (1 : ℕ) ≤ sw - 1 := by omega
    positivity
  rw [div_self hne]
  rw [mul_one]
  have : (d : ℚ) + ((l : ℚ) - d) = (l : ℚ) := by ring
  rw [this]
  rw [pyint_eq_floor (by positivity)]
  simp

/-- Claim C6: the spine base is a horizontal gradient with full alpha —
every in-range pixel of the spine built by `generate_3dbox` is the
truncated linear interpolation, at `t = x / (spine_w - 1)`, between the
dark tone (45% of the per-channel strip average, at the left edge) and
the light tone (70%, at the right edge). -/
theorem box3d_spine_gradient_spec (cover : Img) (sw x y : ℕ)
    (_hh : 1 ≤ cover.h) (hx : x < sw) (hy : y < cover.h) :
    (box3d_spine_base cover sw).px x y =
      ⟨gradient_channel (tone45 (channel_avg (strip_pixels cover) RGBA.r))
          (tone70 (channel_avg (strip_pixels cover) RGBA.r)) x sw,
        gradient_channel (tone45 (channel_avg (strip_pixels cover) RGBA.g))
          (tone70 (channel_avg (strip_pixels cover) RGBA.g)) x sw,
        gradient_channel (tone45 (channel_avg (strip_pixels cover) RGBA.b))
          (tone70 (channel_avg (strip_pixels cover) RGBA.b)) x sw, 255⟩ ∧
    (x = 0 → (box3d_spine_base cover sw).px x y =
      ⟨tone45 (channel_avg (strip_pixels cover) RGBA.r),
       tone45 (channel_avg (strip_pixels cover) RGBA.g),
       tone45 (channel_avg (strip_pixels cover) RGBA.b), 255⟩) ∧
    (2 ≤ sw → x = sw - 1 → (box3d_spine_base cover sw).px x y =
      ⟨tone70 (channel_avg (strip_pixels cover) RGBA.r),
       tone70 (channel_avg (strip_pixels cover) RGBA.g),
       tone70 (channel_avg (strip_pixels cover) RGBA.b), 255⟩) := by
  unfold box3d_spine_base
  refine ⟨?_, ?_, ?_⟩
  · rw [spine_gradient_px _ _ _ _ _ _ hx hy]
    rfl
  · rintro rfl
    rw [spine_gradient_px _ _ _ _ _ _ hx hy]
    unfold gradient_color
    rw [gradient_channel_left, gradient_channel_left, gradient_channel_left]
  · rintro h2 rfl
    rw [spine_gradient_px _ _ _ _ _ _ hx hy]
    unfold gradient_color
    rw [gradient_channel_right _ _ _ h2, gradient_channel_right _ _ _ h2,
      gradient_channel_right _ _ _ h2]

/-- Claim C6, witness: a constant-colour 10×4 cover, a 5-px spine, pixel
`(2, 1)`. -/
theorem box3d_spine_gradient_spec_witness :
    (1 ≤ coverC6.h ∧ 2 < 5 ∧ 1 < coverC6.h) ∧
    ((box3d_spine_base coverC6 5).px 2 1 =
      ⟨gradient_channel (tone45 (channel_avg (strip_pixels coverC6) RGBA.r))
          (tone70 (channel_avg (strip_pixels coverC6) RGBA.r)) 2 5,
        gradient_channel (tone45 (channel_avg (strip_pixels coverC6) RGBA.g))
          (tone70 (channel_avg (strip_pixels coverC6) RGBA.g)) 2 5,
        gradient_channel (tone45 (channel_avg (strip_pixels coverC6) RGBA.b))
          (tone70 (channel_avg (strip_pixels coverC6) RGBA.b)) 2 5, 255⟩ ∧
      (2 = 0 → (box3d_spine_base coverC6 5).px 2 1 =
        ⟨tone45 (channel_avg (strip_pixels coverC6) RGBA.r),
         tone45 (channel_avg (strip_pixels coverC6) RGBA.g),
         tone45 (channel_avg (strip_pixels coverC6) RGBA.b), 255⟩) ∧
      (2 ≤ 5 → 2 = 5 - 1 → (box3d_spine_base coverC6 5).px 2 1 =
        ⟨tone70 (channel_avg (strip_pixels coverC6) RGBA.r),
         tone70 (channel_avg (strip_pixels coverC6) RGBA.g),
         tone70 (channel_avg (strip_pixels coverC6) RGBA.b), 255⟩)) :=
  ⟨by decide,
   box3d_spine_gradient_spec coverC6 5 2 1 (by decide) (by decide) (by decide)⟩

/-- Claim C8: a platform code absent from `_PS2_STYLE_SYSTEMS` resolves to
the no-decorator pair `(None, None)`, and box synthesis proceeds with the
cover unchanged and the spine face equal to the plain (undecorated)
gradient base. -/
theorem unknown_system_no_decoration (font : Font) (system : String)
    (hsys : system.toLower ∉ PS2_STYLE_SYSTEMS) (cover : Img)
    (ratio angle : ℚ) (cvw cvh : ℕ) (text fp : String) :
    get_decorators font system = (none, none) ∧
    (box3d_prewarp font cover ratio angle cvw cvh text system fp).cover_face = cover ∧
    (box3d_prewarp font cover ratio angle cvw cvh text system fp).spine_face =
      box3d_spine_base cover
        (box3d_geometry cover.w cover.h ratio angle cvw cvh).spine_w := by
  have hget : get_decorators font system = (none, none) := by
    unfold get_decorators
    rw [if_neg hsys]
  refine ⟨hget, ?_, ?_⟩
  · unfold box3d_prewarp
    dsimp only
    rw [hget]
    rfl
  · unfold box3d_prewarp
    dsimp only
    rw [hget]
    rfl

/-- Claim C8, witness at the unregistered platform code `"snes"`. -/
theorem unknown_system_no_decoration_witness :
    ("snes".toLower ∉ PS2_STYLE_SYSTEMS) ∧
    (get_decorators unitFont "snes" = (none, none) ∧
      (box3d_prewarp unitFont coverC8 (8/100) (30/100) 0 0 "Title" "snes" "").cover_face
        = coverC8 ∧
      (box3d_prewarp unitFont coverC8 (8/100) (30/100) 0 0 "Title" "snes" "").spine_face
        = box3d_spine_base coverC8
            (box3d_geometry coverC8.w coverC8.h (8/100) (30/100) 0 0).spine_w) :=
  ⟨by with_unfolding_all decide,
   unknown_system_no_decoration unitFont "snes" (by with_unfolding_all decide)
     coverC8 (8/100) (30/100) 0 0 "Title" ""⟩

/-- Claim C9: a spine narrower than 6 px is returned pixel-for-pixel
unchanged by both `decorate_spine` and `_add_spine_highlight`, whatever
the title, platform code or font path. -/
theorem narrow_spine_untouched (font : Font) (spine : Img)
    (title system fp : String) (hw : spine.w < 6) :
    decorate_spine font spine title system fp = spine ∧
    add_spine_highlight spine = spine := by
  constructor
  · unfold decorate_spine
    rw [if_pos hw]
  · unfold add_spine_highlight
    rw [if_pos hw]

/-- Claim C9, witness at a 5×10 spine. -/
theorem narrow_spine_untouched_witness :
    (spineC9.w < 6) ∧
    (decorate_spine unitFont spineC9 "T" "ps2" "" = spineC9 ∧
      add_spine_highlight spineC9 = spineC9) :=
  ⟨by decide,
   narrow_spine_untouched unitFont spineC9 "T" "ps2" "" (by decide)⟩

theorem add_spine_highlight_w (img : Img) : (add_spine_highlight img).w = img.w := by
  unfold add_spine_highlight
  split
  · rfl
  · rfl

theorem add_spine_highlight_h (img : Img) : (add_spine_highlight img).h = img.h := by
  unfold add_spine_highlight
  split
  · rfl
  · rfl

theorem draw_vertical_text_px_w (font : Font) (size : ℕ) (img : Img)
    (chars : List Char) (xc : ℕ) (y ye : ℤ) (color : RGBA) (sp : ℕ) :
    (draw_vertical_text_px font size img chars xc y ye color sp).w = img.w := by
  induction chars generalizing img y with
  | nil => rfl
  | cons c rest ih =>
    unfold draw_vertical_text_px
    dsimp only
    split
    · rfl
    · rw [ih]
      rfl

theorem draw_vertical_text_px_h (font : Font) (size : ℕ) (img : Img)
    (chars : List Char) (xc : ℕ) (y ye : ℤ) (color : RGBA) (sp : ℕ) :
    (draw_vertical_text_px font size img chars xc y ye color sp).h = img.h := by
  induction chars generalizing img y with
  | nil => rfl
  | cons c rest ih =>
    unfold draw_vertical_text_px
    dsimp only
    split
    · rfl
    · rw [ih]
      rfl

/-- Claim C7: spine decoration never changes the spine's dimensions —
for every spine canvas, title, platform code and font path,
`decorate_spine` returns an image of exactly the input's width and
height. -/
theorem decorate_spine_dims (font : Font) (spine : Img) (title system fp : String) :
    (decorate_spine font spine title system fp).w = spine.w ∧
    (decorate_spine font spine title system fp).h = spine.h := by
  unfold decorate_spine
  split
  · exact ⟨rfl, rfl⟩
  · constructor
    · rw [add_spine_highlight_w]
      repeat' split
      all_goals simp [draw_vertical_text_px_w]
    · rw [add_spine_highlight_h]
      repeat' split
      all_goals simp [draw_vertical_text_px_h]

theorem shrink_title_go_ge (font : Font) (chars : List Char) (band : ℤ) :
    ∀ fuel size : ℕ, 6 ≤ size → 6 ≤ shrink_title_go font chars band fuel size := by
  intro fuel
  induction fuel with
  | zero => intro size h6; exact h6
  | succ f ih =>
    intro size h6
    unfold shrink_title_go
    split
    · rename_i hcond
      exact ih (size - 1) (by omega)
    · exact h6

theorem shrink_title_go_le (font : Font) (chars : List Char) (band : ℤ) :
    ∀ fuel size : ℕ, shrink_title_go font chars band fuel size ≤ size := by
  intro fuel
  induction fuel with
  | zero => intro size; exact le_refl _
  | succ f ih =>
    intro size
    unfold shrink_title_go
    split
    · exact le_trans (ih (size - 1)) (by omega)
    · exact le_refl _

theorem shrink_title_go_exit (font : Font) (chars : List Char) (band : ℤ) :
    ∀ fuel size : ℕ, 6 ≤ size → size - 6 ≤ fuel →
      (total_title_h font (shrink_title_go font chars band fuel size) chars : ℤ) ≤ band ∨
      shrink_title_go font chars band fuel size = 6 := by
  intro fuel
  induction fuel with
  | zero =>
    intro size h6 hf
    have : size = 6 := by omega
    right
    simp [shrink_title_go, this]
  | succ f ih =>
    intro size h6 hf
    unfold shrink_title_go
    split
    · rename_i hcond
      exact ih (size - 1) (by omega) (by omega)
    · rename_i hcond
      rw [not_and_or] at hcond
      rcases hcond with h1 | h2
      · left; omega
      · right; omega

theorem shrink_title_font_ge (font : Font) (chars : List Char) (band : ℤ)
    (size : ℕ) (h6 : 6 ≤ size) : 6 ≤ shrink_title_font font chars band size :=
  shrink_title_go_ge font chars band size size h6

theorem shrink_title_font_le (font : Font) (chars : List Char) (band : ℤ)
    (size : ℕ) : shrink_title_font font chars band size ≤ size :=
  shrink_title_go_le font chars band size size

theorem shrink_title_font_exit (font : Font) (chars : List Char) (band : ℤ)
    (size : ℕ) (h6 : 6 ≤ size) :
    (total_title_h font (shrink_title_font font chars band size) chars : ℤ) ≤ band ∨
    shrink_title_font font chars band size = 6 :=
  shrink_title_go_exit font chars band size size h6 (by omega)

theorem drawGlyph_mod (font : Font) (size : ℕ) (img : Img) (x y : ℤ)
    (c : Char) (color : RGBA) (i j : ℕ)
    (h : (drawGlyph font size img x y c color).px i j ≠ img.px i j) :
    y ≤ (j : ℤ) ∧ (j : ℤ) < y + font.charH size c := by
  unfold drawGlyph at h
  dsimp only at h
  by_cases hc : glyphCovers font size c x y i j
  · unfold glyphCovers at hc
    rw [List.any_eq_true] at hc
    obtain ⟨dx, _hdx, hdy⟩ := hc
    rw [List.any_eq_true] at hdy
    obtain ⟨dy, hdy2, hprop⟩ := hdy
    rw [List.mem_range] at hdy2
    rw [Bool.and_eq_true, Bool.and_eq_true] at hprop
    have hj : (j : ℤ) = y + dy := by
      have := hprop.2
      rwa [beq_iff_eq] at this
    constructor
    · omega
    · omega
  · rw [if_neg hc] at h
    exact absurd rfl h

theorem draw_vertical_text_px_mod (font : Font) (size : ℕ) (chars : List Char)
    (xc : ℕ) (ye : ℤ) (color : RGBA) (sp : ℕ) :
    ∀ (img : Img) (y : ℤ) (i j : ℕ),
      (draw_vertical_text_px font size img chars xc y ye color sp).px i j ≠ img.px i j →
      y ≤ (j : ℤ) ∧ (j : ℤ) < ye := by
  induction chars with
  | nil =>
    intro img y i j h
    exact absurd rfl h
  | cons c rest ih =>
    intro img y i j h
    unfold draw_vertical_text_px at h
    dsimp only at h
    split at h
    · exact absurd rfl h
    · rename_i hfit
      by_cases hg :
        (draw_vertical_text_px font size
            (drawGlyph font size img ((xc : ℤ) - font.charW size c / 2) y c color)
            rest xc (y + font.charH size c + sp) ye color sp).px i j
          = (drawGlyph font size img ((xc : ℤ) - font.charW size c / 2) y c color).px i j
      · have hmod : (drawGlyph font size img ((xc : ℤ) - font.charW size c / 2) y c color).px i j
            ≠ img.px i j := fun he => h (hg.trans he)
        have hb := drawGlyph_mod font size img _ y c color i j hmod
        refine ⟨hb.1, ?_⟩
        omega
      · have := ih _ _ i j hg
        constructor
        · omega
        · exact this.2

/-- Claim C5: the title shrink loop terminates with a final font size
between the floor 6 and the initial size, stopping as soon as the
measured stack fits the reserved band (or at the floor); and the drawn
title modifies only pixels whose rows lie inside the reserved title band
`[title_region_top, title_region_bot)` — no glyph is drawn below the
band's lower bound, so the drawn glyph stack's height is at most the band
height, and at the floor the title is clipped rather than overflowed. -/
theorem title_typesetting_bounds (font : Font) (title : String)
    (sw sh prh : ℕ) (img : Img) (i j : ℕ) :
    let title_region_top := sh * 2 / 100 + prh
    let title_region_bot := sh - sh * 2 / 100
    let title_pad := sw * 15 / 100
    let ys := title_region_top + title_pad
    let ye : ℤ := (title_region_bot : ℤ) - title_pad
    let s0 := max 7 (sw * 55 / 100)
    let fs := shrink_title_font font title.toList (ye - ys) s0
    let sp := max 1 (fs * 12 / 100)
    (6 ≤ fs ∧ fs ≤ s0) ∧
    ((total_title_h font fs title.toList : ℤ) ≤ ye - ys ∨ fs = 6) ∧
    ((draw_vertical_text_px font fs img title.toList (sw / 2) (ys : ℤ) ye
        ⟨0, 0, 0, 200⟩ sp).px i j ≠ img.px i j →
      (title_region_top : ℤ) ≤ (j : ℤ) ∧ (j : ℤ) < title_region_bot) := by
  dsimp only
  refine ⟨⟨?_, ?_⟩, ?_, ?_⟩
  · exact shrink_title_font_ge _ _ _ _ (le_trans (by norm_num) (le_max_left 7 _))
  · exact shrink_title_font_le _ _ _ _
  · exact shrink_title_font_exit _ _ _ _ (le_trans (by norm_num) (le_max_left 7 _))
  · intro hmod
    have hb := draw_vertical_text_px_mod _ _ _ _ _ _ _ _ _ i j hmod
    obtain ⟨hb1, hb2⟩ := hb
    constructor
    · omega
    · omega

/-- Claim C5, witness at `unitFont`, title `"AB"`, a 20×200 spine with no
platform label, probing pixel `(9, 7)`. -/
theorem title_typesetting_bounds_witness :
    let title_region_top := 200 * 2 / 100 + 0
    let title_region_bot := 200 - 200 * 2 / 100
    let title_pad := 20 * 15 / 100
    let ys := title_region_top + title_pad
    let ye : ℤ := (title_region_bot : ℤ) - title_pad
    let s0 := max 7 (20 * 55 / 100)
    let fs := shrink_title_font unitFont "AB".toList (ye - ys) s0
    let sp := max 1 (fs * 12 / 100)
    (6 ≤ fs ∧ fs ≤ s0) ∧
    ((total_title_h unitFont fs "AB".toList : ℤ) ≤ ye - ys ∨ fs = 6) ∧
    ((draw_vertical_text_px unitFont fs coverC8 "AB".toList (20 / 2) (ys : ℤ) ye
        ⟨0, 0, 0, 200⟩ sp).px 9 7 ≠ coverC8.px 9 7 →
      (title_region_top : ℤ) ≤ ((7 : ℕ) : ℤ) ∧ ((7 : ℕ) : ℤ) < title_region_bot) :=
  title_typesetting_bounds unitFont "AB" 20 200 0 coverC8 9 7
